import Mathlib

/-!
Verification development for the CokeXNFI dwell-time dashboard pipeline
(src/main.py).  The definitions below are a shallow embedding of the data
preparation pipeline: the per-feed datetime normalization (lines 44-58),
the DuckDB activity filter / latest-event ranking / three-way left join
(lines 79-124), the mandatory-field drop (line 127), the per-row compliance
and dwell computation (lines 130-183) and the Shipment ID emission
expression (line 106).  Timestamps are modelled at minute granularity
(the pipeline reformats every timestamp with strftime to minute precision
before any comparison happens).
-/

/-! ### Decimal numerals

`digitChar`/`natNumeral` model the decimal rendering of a non-negative
integral value, as DuckDB's `CAST(... AS VARCHAR)` renders the digits of an
integral number.  `natNumeral` is fuel-indexed so that it reduces inside the
kernel; `numeralAux_fuel` shows the fuel is irrelevant once sufficient. -/

def digitChar (k : Nat) : Char := Char.ofNat (48 + k)

def numeralAux : Nat → Nat → List Char
  | 0, _ => []
  | f + 1, n =>
    if n < 10 then [digitChar n]
    else numeralAux f (n / 10) ++ [digitChar (n % 10)]

/-- Decimal digit list of `n` (most significant first, no leading zeros,
`0` rendered as `"0"`). -/
def natNumeral (n : Nat) : List Char := numeralAux (n + 1) n

/-! ### Shipment ID emission (src/main.py line 106)

The merged SELECT emits
`REGEXP_REPLACE(TRIM(TRAILING '.0' FROM CAST(ROUND(ta."SHIPMENT_ID") AS VARCHAR)), ',', '')`.
`TRIM(TRAILING '.0' FROM s)` removes every trailing character drawn from the
set `{'.', '0'}`; DuckDB's `REGEXP_REPLACE` without the `'g'` option replaces
only the first match of the pattern.  `ROUND` of the numeric identifier is an
integral value, which `CAST(... AS VARCHAR)` renders as its decimal digits
followed by `".0"` (float rendering of an integral double). -/

def stripTrailingDotZero (l : List Char) : List Char :=
  (l.reverse.dropWhile (fun c => c = '.' || c = '0')).reverse

def removeFirstComma : List Char → List Char
  | [] => []
  | c :: rest => if c = ',' then rest else c :: removeFirstComma rest

/-- The string emitted as `"Shipment ID"` for an (already rounded, integral)
numeric `SHIPMENT_ID` value `n`. -/
def emitShipmentId (n : Nat) : String :=
  String.mk (removeFirstComma (stripTrailingDotZero (natNumeral n ++ ['.', '0'])))

/-! ### Timestamps

`DT` is a wall-clock timestamp at minute granularity, the granularity the
pipeline works at after every datetime column is reformatted with
`strftime('%m-%d-%Y %H:%M')` (src/main.py lines 48-58).  `formatDT` is that
strftime format; `parseTimestamp` models `pd.to_datetime(..., errors='coerce')`
on the pipeline's canonical textual format: it returns `none` (pandas `NaT`)
instead of raising whenever the string is not a well-formed timestamp.
(`pd.to_datetime` is permissive about additional input formats; the model
covers the canonical format every string inside the pipeline actually has,
and returns the absent value on everything else, as `errors='coerce'`
does on unparsable input.) -/

structure DT where
  year : Nat
  month : Nat
  day : Nat
  hour : Nat
  minute : Nat
deriving DecidableEq, Repr

def zeroPad (k : Nat) (l : List Char) : List Char :=
  List.replicate (k - l.length) '0' ++ l

def pad2 (n : Nat) : List Char := zeroPad 2 (natNumeral n)

def pad4 (n : Nat) : List Char := zeroPad 4 (natNumeral n)

/-- `strftime('%m-%d-%Y %H:%M')`. -/
def formatDT (d : DT) : String :=
  String.mk (pad2 d.month ++ '-' :: (pad2 d.day ++ '-' :: (pad4 d.year ++
    ' ' :: (pad2 d.hour ++ ':' :: pad2 d.minute))))

def isDig (c : Char) : Bool := 48 ≤ c.toNat && c.toNat ≤ 57

def digitVal (c : Char) : Nat := c.toNat - 48

def parseList : List Char → Option DT
  | [m1, m2, c1, d1, d2, c2, y1, y2, y3, y4, c3, h1, h2, c4, n1, n2] =>
    if c1 = '-' && c2 = '-' && c3 = ' ' && c4 = ':' &&
        isDig m1 && isDig m2 && isDig d1 && isDig d2 &&
        isDig y1 && isDig y2 && isDig y3 && isDig y4 &&
        isDig h1 && isDig h2 && isDig n1 && isDig n2 then
      let mo := 10 * digitVal m1 + digitVal m2
      let da := 10 * digitVal d1 + digitVal d2
      let yr := 1000 * digitVal y1 + 100 * digitVal y2 + 10 * digitVal y3 + digitVal y4
      let ho := 10 * digitVal h1 + digitVal h2
      let mi := 10 * digitVal n1 + digitVal n2
      if 1 ≤ mo && mo ≤ 12 && 1 ≤ da && da ≤ 31 && ho ≤ 23 && mi ≤ 59 then
        some ⟨yr, mo, da, ho, mi⟩
      else none
    else none
  | _ => none

def parseTimestamp (s : String) : Option DT := parseList s.data

/-- The timestamps reachable inside the pipeline (what both strftime emits
and the canonical-format parser returns). -/
def validDT (d : DT) : Prop :=
  1 ≤ d.month ∧ d.month ≤ 12 ∧ 1 ≤ d.day ∧ d.day ≤ 31 ∧
  d.hour ≤ 23 ∧ d.minute ≤ 59 ∧ d.year ≤ 9999

/-! ### Compliance evaluator (src/main.py lines 138-176)

Instants are minutes on a linear time axis (`Int`); `dtMinutes` interprets a
calendar timestamp on that axis (days from civil epoch, Gregorian).  The
row loop re-parses each formatted string with `pd.to_datetime` and compares
genuine timestamps, which this interpretation embeds.  `round2` models
Python's `round(x, 2)` as rounding `x * 100` to the nearest integer (the
claims under verification do not depend on the half-way tie direction).
`evalRow` is the body of the `merged_df.iterrows()` loop: it produces the
`Required Time`, `Compliance` and `Dwell Time` fields of one row. -/

def daysFromCivil (y m d : Int) : Int :=
  let y2 : Int := if m ≤ 2 then y - 1 else y
  let era : Int := y2 / 400
  let yoe : Int := y2 - era * 400
  let doy : Int := (153 * (m + (if m > 2 then -3 else 9)) + 2) / 5 + d - 1
  let doe : Int := yoe * 365 + yoe / 4 - yoe / 100 + doy
  era * 146097 + doe - 719468

def dtMinutes (d : DT) : Int :=
  daysFromCivil d.year d.month d.day * 1440 + d.hour * 60 + d.minute

def round2 (q : ℚ) : ℚ := (round (q * 100) : ℚ) / 100

structure EvalIn where
  appointmentType : Option String
  appt : Option Int
  checkIn : Option Int
  loaded : Option Int

structure EvalOut where
  reqTime : Option Int
  comp : String
  dwell : ℚ
deriving DecidableEq

/-- One iteration of the calculated-fields loop (src/main.py lines 145-165):
`Required Time` (line 153), `Compliance` (lines 154-157) and `Dwell Time`
(lines 159-165).  `t` is `current_time` read at line 130.  Durations are
taken in seconds and divided by 3600, as `total_seconds() / 3600` does;
a minute-granularity instant contributes `60` seconds per minute. -/
def evalRow (t : Int) (r : EvalIn) : EvalOut :=
  match r.appt with
  | none => { reqTime := none, comp := "", dwell := 0 }
  | some a =>
    let req : Int := if r.appointmentType = some "Live Load" then a + 15 else a + 1440
    let comp : String :=
      match r.checkIn with
      | some c => if c > req then "Late" else "On Time"
      | none => if t > req then "Late" else "On Time"
    let dwellRaw : ℚ :=
      match r.loaded with
      | none => 0
      | some l =>
        if comp = "Late" then
          match r.checkIn with
          | some c => ((l : ℚ) - (c : ℚ)) * 60 / 3600
          | none => 0
        else if comp = "On Time" then ((l : ℚ) - (a : ℚ)) * 60 / 3600
        else 0
    { reqTime := some req, comp := comp, dwell := round2 (max dwellRaw 0) }

/-- Lines 139-143: the per-row string fields are re-parsed with
`pd.to_datetime(..., errors='coerce')` guarded by a falsy check (an empty
cell parses to the absent value either way). -/
def evalRowOfStrings (t : Int) (apptType : Option String)
    (sAppt sCheckIn sLoaded : String) : EvalOut :=
  evalRow t
    { appointmentType := apptType
      appt := (parseTimestamp sAppt).map dtMinutes
      checkIn := (parseTimestamp sCheckIn).map dtMinutes
      loaded := (parseTimestamp sLoaded).map dtMinutes }

/-! ### Activity feed, filter and latest-event ranking (src/main.py lines 90-121)

`RawEvent` is one `ta_df` row after the datetime normalization of lines
48-50: the `SHIPMENT_ID` cell (`NULL` when absent), `VISIT TYPE`,
`ACTIVITY TYPE ` (the source column name carries a trailing blank), and the
two formatted datetime strings.  Shipment identifiers are carried as their
raw as-ingested values; the SQL join conditions compare those raw values
(no canonicalization appears in the `ON` clauses, and no coercion DuckDB
may perform on them strips grouping separators or reformats a numeral).
The `ranked_ta` CTE orders each `SHIPMENT_ID` partition by the formatted
`"Date/Time"` VARCHAR descending with `NULL`s losing to every string
(DuckDB default null ordering), and `rn = 1` keeps one row per partition;
which row wins among exactly-equal keys is not fixed by SQL, and the model
resolves it as the first such row in input order. -/

structure RawEvent where
  sid : Option String
  visitType : String
  activityType : String
  loaded : Option DT
  checkedOut : Option DT
deriving DecidableEq, Repr

def eligible (e : RawEvent) : Bool :=
  (e.visitType = "Live Load" || e.visitType = "Pickup Load" || e.visitType = "Pickup Empty") &&
  e.sid.isSome && e.activityType = "CLOSED"

/-- The `filtered_ta` CTE (lines 90-96): the WHERE clause keeps eligible
rows in input order. -/
def activityFilter (es : List RawEvent) : List RawEvent := es.filter eligible

/-- The `ORDER BY "Date/Time" DESC` key: the formatted string, `NULL`
below every string. -/
def rawKey (e : RawEvent) : Option String := e.loaded.map formatDT

/-- Lexicographic (codepoint) comparison of two character lists, the order
DuckDB uses on VARCHAR values; stated structurally so concrete comparisons
evaluate inside the kernel. -/
def charListLt : List Char → List Char → Bool
  | [], [] => false
  | [], _ :: _ => true
  | _ :: _, [] => false
  | a :: as, b :: bs => if a < b then true else if b < a then false else charListLt as bs

def keyLt (x y : Option String) : Bool :=
  match x, y with
  | none, none => false
  | none, some _ => true
  | some _, none => false
  | some u, some v => charListLt u.data v.data

/-- Winner of one `SHIPMENT_ID` partition under
`ROW_NUMBER() OVER (... ORDER BY "Date/Time" DESC)` with `rn = 1`: the
first event in input order whose key no later event strictly exceeds. -/
def selectLatest (es : List RawEvent) : Option RawEvent :=
  es.foldl (fun acc e =>
    match acc with
    | none => some e
    | some w => if keyLt (rawKey w) (rawKey e) then some e else some w) none

/-- Distinct elements of a list, first occurrences, in order. -/
def firstUniq : List (Option String) → List (Option String)
  | [] => []
  | x :: xs => if x ∈ firstUniq xs then firstUniq xs else x :: firstUniq xs

/-- `ranked_ta` restricted to `rn = 1`: one surviving row per distinct
`SHIPMENT_ID` of the filtered feed. -/
def reduceLatest (es : List RawEvent) : List RawEvent :=
  (firstUniq (es.map (fun e => e.sid))).filterMap
    (fun s => selectLatest (es.filter (fun e => e.sid == s)))

/-! ### Record linkage and the mandatory-field drop (src/main.py lines 105-127)

`AvRec`/`OvRec` carry the columns the merged SELECT reads from the
appointment view and the order view, each with its raw `"Shipment Nbr"` /
`"Shipment #"` join key.  The two `LEFT JOIN ... ON` conditions compare the
raw key values directly — the canonicalization of line 106 is applied only
to the emitted `Shipment ID` column, never to a join key — with SQL `NULL`
never equal to anything.  A LEFT JOIN emits one output row per matching
right-hand record, and a single all-`NULL` right side when there is no
match.  Line 127 then drops every row whose `Carrier` or `Appointment Date`
is missing. -/

structure AvRec where
  key : Option String
  apptType : Option String
  orderStatus : Option String
  carrier : Option String
deriving DecidableEq, Repr

structure OvRec where
  key : Option String
  apptDate : Option String
  checkIn : Option String
deriving DecidableEq, Repr

structure LinkedRow where
  sidRaw : Option String
  apptType : Option String
  orderStatus : Option String
  carrier : Option String
  apptDate : Option String
  checkIn : Option String
  checkOut : Option DT
  loaded : Option DT
  visitType : String
  activityType : String
deriving DecidableEq, Repr

/-- SQL equality on join keys: `NULL = x` is never true. -/
def rawEq (x y : Option String) : Bool :=
  match x, y with
  | some u, some v => u == v
  | _, _ => false

def avMatches (av : List AvRec) (e : RawEvent) : List AvRec :=
  av.filter (fun a => rawEq e.sid a.key)

def ovMatches (ov : List OvRec) (e : RawEvent) : List OvRec :=
  ov.filter (fun o => rawEq e.sid o.key)

/-- LEFT JOIN right-hand side: all matches, or a single `NULL` row. -/
def orNull (l : List α) : List (Option α) :=
  match l with
  | [] => [none]
  | _ => l.map some

def mkRow (e : RawEvent) (a : Option AvRec) (o : Option OvRec) : LinkedRow :=
  { sidRaw := e.sid
    apptType := a.bind (fun a => a.apptType)
    orderStatus := a.bind (fun a => a.orderStatus)
    carrier := a.bind (fun a => a.carrier)
    apptDate := o.bind (fun o => o.apptDate)
    checkIn := o.bind (fun o => o.checkIn)
    checkOut := e.checkedOut
    loaded := e.loaded
    visitType := e.visitType
    activityType := e.activityType }

def linkRows (red : List RawEvent) (av : List AvRec) (ov : List OvRec) : List LinkedRow :=
  red.flatMap (fun e =>
    (orNull (avMatches av e)).flatMap (fun a =>
      (orNull (ovMatches ov e)).map (fun o => mkRow e a o)))

/-- The full merge query of lines 89-124: filter, rank/keep `rn = 1`,
then the two left joins. -/
def mergedRows (raw : List RawEvent) (av : List AvRec) (ov : List OvRec) : List LinkedRow :=
  linkRows (reduceLatest (activityFilter raw)) av ov

/-- Line 127: `merged_df.dropna(subset=['Carrier', 'Appointment Date'])`. -/
def dropMissing (rows : List LinkedRow) : List LinkedRow :=
  rows.filter (fun r => r.carrier.isSome && r.apptDate.isSome)

/-- The table the calculated-fields loop runs over. -/
def complianceInput (raw : List RawEvent) (av : List AvRec) (ov : List OvRec) :
    List LinkedRow :=
  dropMissing (mergedRows raw av ov)

/-- Modelled from the spec: the canonical identifier form of the Record
Linker contract, "trailing fractional zero and grouping separators
stripped"; stated to compare with the raw-equality join the code performs
(the code itself contains no canonicalization at the join boundary). -/
def canonId (s : String) : String :=
  match (s.data.filter (fun c => c ≠ ',')).reverse with
  | '0' :: '.' :: rest => String.mk rest.reverse
  | l => String.mk l.reverse

def wEvent : RawEvent := ⟨some "9", "Pickup Empty", "CLOSED", none, none⟩

def wAv : AvRec :=
  { key := some "9", apptType := some "Drop", orderStatus := some "Open",
    carrier := some "NFI" }

def wRow : LinkedRow :=
  { sidRaw := some "9", apptType := some "Drop", orderStatus := some "Open",
    carrier := some "NFI", apptDate := none, checkIn := none, checkOut := none,
    loaded := none, visitType := "Pickup Empty", activityType := "CLOSED" }

def wEvent2 : RawEvent := ⟨some "5", "Live Load", "CLOSED", some ⟨2024, 3, 1, 9, 0⟩, none⟩

def wAv2 : AvRec :=
  { key := some "5", apptType := some "Live Load", orderStatus := some "Open",
    carrier := some "NFI" }

def wOv2 : OvRec :=
  { key := some "5", apptDate := some "03-01-2024 08:00",
    checkIn := some "03-01-2024 08:10" }

def wRow2 : LinkedRow := mkRow wEvent2 (some wAv2) (some wOv2)

/-- Lines 44-58: per-feed datetime normalization guarded by
`if col in df.columns`.  The function returns which of the expected datetime
columns were actually normalized; a missing column is silently skipped, and
the codomain's error case is never produced — the stage, and the rest of
the upload path, contains no validation that fails on a missing required
column. -/
def normalizedColumns (dtCols frameCols : List String) : Except String (List String) :=
  Except.ok (dtCols.filter (fun c => frameCols.contains c))

def datetimeColumnsTa : List String := ["CHECKOUT DATE TIME", "Date/Time"]

theorem numeralAux_fuel (f₁ f₂ n : Nat) (h₁ : n < f₁) (h₂ : n < f₂) :
    numeralAux f₁ n = numeralAux f₂ n := by
  induction n using Nat.strong_induction_on generalizing f₁ f₂ with
  | _ n ih =>
    match f₁, f₂ with
    | f₁ + 1, f₂ + 1 =>
      by_cases h : n < 10
      · simp [numeralAux, h]
      · have hdiv : n / 10 < n := Nat.div_lt_self (by omega) (by omega)
        simp only [numeralAux, h, if_false]
        rw [ih (n / 10) hdiv f₁ f₂ (by omega) (by omega)]

theorem natNumeral_small (n : Nat) (h : n < 10) : natNumeral n = [digitChar n] := by
  simp [natNumeral, numeralAux, h]

theorem natNumeral_step (n : Nat) (h : 10 ≤ n) :
    natNumeral n = natNumeral (n / 10) ++ [digitChar (n % 10)] := by
  have hdiv : n / 10 < n := Nat.div_lt_self (by omega) (by omega)
  conv_lhs => rw [natNumeral, numeralAux]
  rw [if_neg (Nat.not_lt.mpr h)]
  rw [numeralAux_fuel n (n / 10 + 1) (n / 10) (by omega) (by omega)]
  rfl

theorem natNumeral_mul_ten (n : Nat) (h : 1 ≤ n) :
    natNumeral (10 * n) = natNumeral n ++ [digitChar 0] := by
  have h10 : 10 ≤ 10 * n := by omega
  rw [natNumeral_step _ h10, Nat.mul_div_cancel_left n (by omega),
    Nat.mul_mod_right]

theorem digitChar_mem_digits (k : Nat) (h : k < 10) :
    digitChar k ∈ (['0', '1', '2', '3', '4', '5', '6', '7', '8', '9'] : List Char) := by
  interval_cases k <;> decide

theorem natNumeral_digits (n : Nat) :
    ∀ c ∈ natNumeral n, c ∈ (['0', '1', '2', '3', '4', '5', '6', '7', '8', '9'] : List Char) := by
  induction n using Nat.strong_induction_on with
  | _ n ih =>
    intro c hc
    by_cases h : n < 10
    · rw [natNumeral_small n h] at hc
      simp at hc
      exact hc ▸ digitChar_mem_digits n h
    · rw [natNumeral_step n (by omega)] at hc
      rcases List.mem_append.mp hc with h1 | h1
      · exact ih (n / 10) (Nat.div_lt_self (by omega) (by omega)) c h1
      · simp at h1
        exact h1 ▸ digitChar_mem_digits _ (Nat.mod_lt _ (by omega))

theorem stripTrailingDotZero_append_zero (l : List Char) :
    stripTrailingDotZero (l ++ ['0']) = stripTrailingDotZero l := by
  simp [stripTrailingDotZero, List.dropWhile]

theorem stripTrailingDotZero_append_dotzero (l : List Char) :
    stripTrailingDotZero (l ++ ['.', '0']) = stripTrailingDotZero l := by
  have : l ++ ['.', '0'] = (l ++ ['.']) ++ ['0'] := by simp
  rw [this, stripTrailingDotZero_append_zero]
  simp [stripTrailingDotZero, List.dropWhile]

theorem dropWhile_head_not (p : α → Bool) (l : List α) (a : α)
    (h : (l.dropWhile p).head? = some a) : p a = false := by
  induction l with
  | nil => simp [List.dropWhile] at h
  | cons x xs ih =>
    rw [List.dropWhile_cons] at h
    by_cases hx : p x
    · rw [if_pos hx] at h
      exact ih h
    · rw [if_neg hx] at h
      simp at h
      subst h
      simpa using hx

theorem stripTrailingDotZero_last (l : List Char) (c : Char)
    (h : (stripTrailingDotZero l).getLast? = some c) : c ≠ '.' ∧ c ≠ '0' := by
  rw [stripTrailingDotZero, List.getLast?_reverse] at h
  have := dropWhile_head_not (fun c => c = '.' || c = '0') l.reverse c h
  simp at this
  exact ⟨this.1, this.2⟩

theorem stripTrailingDotZero_subset (l : List Char) :
    ∀ c ∈ stripTrailingDotZero l, c ∈ l := by
  intro c hc
  rw [stripTrailingDotZero, List.mem_reverse] at hc
  have := (List.dropWhile_sublist (l := l.reverse) (p := fun c => c = '.' || c = '0')).mem hc
  exact List.mem_reverse.mp this

theorem removeFirstComma_of_no_comma (l : List Char) (h : ∀ c ∈ l, c ≠ ',') :
    removeFirstComma l = l := by
  induction l with
  | nil => rfl
  | cons x xs ih =>
    rw [removeFirstComma, if_neg (h x (List.mem_cons_self x xs)), ih]
    intro c hc
    exact h c (List.mem_cons_of_mem x hc)

theorem emitShipmentId_data (n : Nat) :
    (emitShipmentId n).data = stripTrailingDotZero (natNumeral n) := by
  have hd : ∀ c ∈ (['0', '1', '2', '3', '4', '5', '6', '7', '8', '9'] : List Char), c ≠ ',' := by
    decide
  have hd2 : ∀ c ∈ (['.', '0'] : List Char), c ≠ ',' := by decide
  have hsub : ∀ c ∈ stripTrailingDotZero (natNumeral n ++ ['.', '0']), c ≠ ',' := by
    intro c hc
    have hmem := stripTrailingDotZero_subset _ c hc
    rcases List.mem_append.mp hmem with h1 | h1
    · exact hd c (natNumeral_digits n c h1)
    · exact hd2 c h1
  show removeFirstComma (stripTrailingDotZero (natNumeral n ++ ['.', '0'])) = _
  rw [removeFirstComma_of_no_comma _ hsub, stripTrailingDotZero_append_dotzero]

theorem emitShipmentId_mul_ten (n : Nat) :
    emitShipmentId (10 * n) = emitShipmentId n := by
  rcases Nat.eq_zero_or_pos n with h | h
  · subst h; rfl
  · have hz : digitChar 0 = '0' := by decide
    have hdata : (emitShipmentId (10 * n)).data = (emitShipmentId n).data := by
      rw [emitShipmentId_data, emitShipmentId_data, natNumeral_mul_ten n h, hz]
      exact stripTrailingDotZero_append_zero _
    cases hE : emitShipmentId (10 * n)
    cases hF : emitShipmentId n
    rw [hE, hF] at hdata
    simp at hdata
    rw [hdata]

theorem digitVal_digitChar (k : Nat) (h : k < 10) : digitVal (digitChar k) = k := by
  interval_cases k <;> decide

theorem isDig_digitChar (k : Nat) (h : k < 10) : isDig (digitChar k) = true := by
  interval_cases k <;> decide

theorem digitChar_digitVal (c : Char) (h : isDig c = true) :
    digitChar (digitVal c) = c := by
  simp [isDig] at h
  have h48 : 48 + (c.toNat - 48) = c.toNat := by omega
  rw [digitChar, digitVal, h48]
  exact Char.ofNat_toNat c

theorem digitVal_le_nine (c : Char) (h : isDig c = true) : digitVal c ≤ 9 := by
  simp [isDig] at h
  rw [digitVal]
  omega

theorem pad2_eq (n : Nat) (h : n < 100) :
    pad2 n = [digitChar (n / 10), digitChar (n % 10)] := by
  have hz : digitChar 0 = '0' := by decide
  by_cases h10 : n < 10
  · rw [pad2, natNumeral_small n h10]
    have e1 : n / 10 = 0 := by omega
    have e2 : n % 10 = n := by omega
    rw [e1, e2, hz]
    rfl
  · rw [pad2, natNumeral_step n (by omega), natNumeral_small (n / 10) (by omega)]
    rfl

theorem pad4_eq (n : Nat) (h : n < 10000) :
    pad4 n = [digitChar (n / 1000), digitChar (n / 100 % 10),
      digitChar (n / 10 % 10), digitChar (n % 10)] := by
  have hz : digitChar 0 = '0' := by decide
  by_cases h10 : n < 10
  · rw [pad4, natNumeral_small n h10]
    have e1 : n / 1000 = 0 := by omega
    have e2 : n / 100 % 10 = 0 := by omega
    have e3 : n / 10 % 10 = 0 := by omega
    have e4 : n % 10 = n := by omega
    rw [e1, e2, e3, e4, hz]
    rfl
  · by_cases h100 : n < 100
    · rw [pad4, natNumeral_step n (by omega), natNumeral_small (n / 10) (by omega)]
      have e1 : n / 1000 = 0 := by omega
      have e2 : n / 100 % 10 = 0 := by omega
      have e3 : n / 10 % 10 = n / 10 := by omega
      rw [e1, e2, e3, hz]
      rfl
    · by_cases h1000 : n < 1000
      · rw [pad4, natNumeral_step n (by omega), natNumeral_step (n / 10) (by omega),
          natNumeral_small (n / 10 / 10) (by omega)]
        have e1 : n / 1000 = 0 := by omega
        have e2 : n / 10 / 10 = n / 100 := by omega
        have e3 : n / 100 % 10 = n / 100 := by omega
        rw [e1, e2, e3, hz]
        rfl
      · rw [pad4, natNumeral_step n (by omega), natNumeral_step (n / 10) (by omega),
          natNumeral_step (n / 10 / 10) (by omega),
          natNumeral_small (n / 10 / 10 / 10) (by omega)]
        have e1 : n / 10 / 10 / 10 = n / 1000 := by omega
        have e2 : n / 10 / 10 % 10 = n / 100 % 10 := by omega
        rw [e1, e2]
        rfl

theorem parseTimestamp_format (d : DT) (h : validDT d) :
    parseTimestamp (formatDT d) = some d := by
  obtain ⟨h1, h2, h3, h4, h5, h6, h7⟩ := h
  show parseList (formatDT d).data = some d
  have hdata : (formatDT d).data = pad2 d.month ++ '-' :: (pad2 d.day ++ '-' ::
      (pad4 d.year ++ ' ' :: (pad2 d.hour ++ ':' :: pad2 d.minute))) := rfl
  rw [hdata, pad2_eq d.month (by omega), pad2_eq d.day (by omega),
    pad4_eq d.year (by omega), pad2_eq d.hour (by omega), pad2_eq d.minute (by omega)]
  have i1 : isDig (digitChar (d.month / 10)) = true := isDig_digitChar _ (by omega)
  have i2 : isDig (digitChar (d.month % 10)) = true := isDig_digitChar _ (by omega)
  have i3 : isDig (digitChar (d.day / 10)) = true := isDig_digitChar _ (by omega)
  have i4 : isDig (digitChar (d.day % 10)) = true := isDig_digitChar _ (by omega)
  have i5 : isDig (digitChar (d.year / 1000)) = true := isDig_digitChar _ (by omega)
  have i6 : isDig (digitChar (d.year / 100 % 10)) = true := isDig_digitChar _ (by omega)
  have i7 : isDig (digitChar (d.year / 10 % 10)) = true := isDig_digitChar _ (by omega)
  have i8 : isDig (digitChar (d.year % 10)) = true := isDig_digitChar _ (by omega)
  have i9 : isDig (digitChar (d.hour / 10)) = true := isDig_digitChar _ (by omega)
  have i10 : isDig (digitChar (d.hour % 10)) = true := isDig_digitChar _ (by omega)
  have i11 : isDig (digitChar (d.minute / 10)) = true := isDig_digitChar _ (by omega)
  have i12 : isDig (digitChar (d.minute % 10)) = true := isDig_digitChar _ (by omega)
  have v1 : digitVal (digitChar (d.month / 10)) = d.month / 10 :=
    digitVal_digitChar _ (by omega)
  have v2 : digitVal (digitChar (d.month % 10)) = d.month % 10 :=
    digitVal_digitChar _ (by omega)
  have v3 : digitVal (digitChar (d.day / 10)) = d.day / 10 :=
    digitVal_digitChar _ (by omega)
  have v4 : digitVal (digitChar (d.day % 10)) = d.day % 10 :=
    digitVal_digitChar _ (by omega)
  have v5 : digitVal (digitChar (d.year / 1000)) = d.year / 1000 :=
    digitVal_digitChar _ (by omega)
  have v6 : digitVal (digitChar (d.year / 100 % 10)) = d.year / 100 % 10 :=
    digitVal_digitChar _ (by omega)
  have v7 : digitVal (digitChar (d.year / 10 % 10)) = d.year / 10 % 10 :=
    digitVal_digitChar _ (by omega)
  have v8 : digitVal (digitChar (d.year % 10)) = d.year % 10 :=
    digitVal_digitChar _ (by omega)
  have v9 : digitVal (digitChar (d.hour / 10)) = d.hour / 10 :=
    digitVal_digitChar _ (by omega)
  have v10 : digitVal (digitChar (d.hour % 10)) = d.hour % 10 :=
    digitVal_digitChar _ (by omega)
  have v11 : digitVal (digitChar (d.minute / 10)) = d.minute / 10 :=
    digitVal_digitChar _ (by omega)
  have v12 : digitVal (digitChar (d.minute % 10)) = d.minute % 10 :=
    digitVal_digitChar _ (by omega)
  have em : 10 * (d.month / 10) + d.month % 10 = d.month := by omega
  have ed : 10 * (d.day / 10) + d.day % 10 = d.day := by omega
  have ey : 1000 * (d.year / 1000) + 100 * (d.year / 100 % 10) +
      10 * (d.year / 10 % 10) + d.year % 10 = d.year := by omega
  have eh : 10 * (d.hour / 10) + d.hour % 10 = d.hour := by omega
  have en : 10 * (d.minute / 10) + d.minute % 10 = d.minute := by omega
  simp only [parseList, List.cons_append, List.nil_append, i1, i2, i3, i4, i5, i6,
    i7, i8, i9, i10, i11, i12, v1, v2, v3, v4, v5, v6, v7, v8, v9, v10, v11, v12,
    em, ed, ey, eh, en]
  simp [h1, h2, h3, h4, h5, h6]

theorem parseTimestamp_valid (s : String) (d : DT) (h : parseTimestamp s = some d) :
    validDT d := by
  rw [parseTimestamp] at h
  unfold parseList at h
  split at h
  case _ m1 m2 c1 d1 d2 c2 y1 y2 y3 y4 c3 hh1 hh2 c4 n1 n2 =>
    split at h
    case isTrue hA =>
      dsimp only at h
      split at h
      case isTrue hB =>
        simp only [Option.some.injEq] at h
        subst h
        simp only [Bool.and_eq_true, decide_eq_true_eq, isDig] at hA hB
        rw [validDT]
        simp only []
        obtain ⟨⟨⟨⟨⟨⟨⟨⟨⟨⟨⟨⟨⟨⟨⟨hc1, hc2⟩, hc3⟩, hc4⟩, hm1⟩, hm2⟩, hd1⟩, hd2⟩,
          hy1⟩, hy2⟩, hy3⟩, hy4⟩, hhh1⟩, hhh2⟩, hn1⟩, hn2⟩ := hA
        simp only [digitVal] at hB ⊢
        omega
      case isFalse => exact absurd h (by simp)
    case isFalse => exact absurd h (by simp)
  case _ => exact absurd h (by simp)

theorem parseTimestamp_empty : parseTimestamp "" = none := rfl

theorem round2_nonneg (q : ℚ) (h : 0 ≤ q) : 0 ≤ round2 q := by
  rw [round2]
  have h1 : (0 : ℤ) ≤ round (q * 100) := by
    rw [round_eq]
    apply Int.floor_nonneg.mpr
    linarith
  have h2 : (0 : ℚ) ≤ (round (q * 100) : ℚ) := by exact_mod_cast h1
  exact div_nonneg h2 (by norm_num)

theorem round2_zero : round2 0 = 0 := by
  rw [round2]
  norm_num

/-- C1: for a row with a known appointment instant, `Required Time` is the
appointment plus 15 minutes for a `Live Load` appointment type and plus 1440
minutes otherwise, and the row is classified `Late` exactly when the
comparison instant (check-in when known, otherwise the evaluation wall-clock
time) strictly exceeds the required time; at equality it is `On Time`. -/
theorem compliance_rule_correct (t : Int) (r : EvalIn) (a : Int) (h : r.appt = some a) :
    (evalRow t r).reqTime =
      some (if r.appointmentType = some "Live Load" then a + 15 else a + 1440) ∧
    ((evalRow t r).comp = "Late" ↔
      r.checkIn.getD t > (if r.appointmentType = some "Live Load" then a + 15 else a + 1440)) ∧
    (r.checkIn.getD t = (if r.appointmentType = some "Live Load" then a + 15 else a + 1440) →
      (evalRow t r).comp = "On Time") := by
  obtain ⟨ty, ap, ci, ld⟩ := r
  simp only at h
  subst h
  cases ci with
  | none =>
    by_cases hc : t > (if ty = some "Live Load" then a + 15 else a + 1440)
    · refine ⟨rfl, ?_, ?_⟩
      · simp [evalRow, hc]
      · intro he
        simp only [Option.getD_none] at he
        omega
    · refine ⟨rfl, ?_, ?_⟩
      · simp [evalRow, hc]
      · intro _
        simp [evalRow, hc]
  | some c =>
    by_cases hc : c > (if ty = some "Live Load" then a + 15 else a + 1440)
    · refine ⟨rfl, ?_, ?_⟩
      · simp [evalRow, hc]
      · intro he
        simp only [Option.getD_some] at he
        omega
    · refine ⟨rfl, ?_, ?_⟩
      · simp [evalRow, hc]
      · intro _
        simp [evalRow, hc]

theorem compliance_rule_correct_witness :
    (evalRow 0 ⟨some "Live Load", some 100, some 115, none⟩).reqTime =
      some (if (some "Live Load" : Option String) = some "Live Load"
        then (100 : Int) + 15 else (100 : Int) + 1440) ∧
    ((evalRow 0 ⟨some "Live Load", some 100, some 115, none⟩).comp = "Late" ↔
      (some (115 : Int)).getD 0 > (if (some "Live Load" : Option String) = some "Live Load"
        then (100 : Int) + 15 else (100 : Int) + 1440)) ∧
    ((some (115 : Int)).getD 0 = (if (some "Live Load" : Option String) = some "Live Load"
        then (100 : Int) + 15 else (100 : Int) + 1440) →
      (evalRow 0 ⟨some "Live Load", some 100, some 115, none⟩).comp = "On Time") :=
  compliance_rule_correct 0 ⟨some "Live Load", some 100, some 115, none⟩ 100 rfl

/-- C2: `Dwell Time` is non-negative for every row; it is only derived when
the loaded instant is known (`Late` with known check-in: loaded minus
check-in in hours; `On Time`: loaded minus appointment in hours; `Late`
without check-in: the zero default), and the derived value is clamped at 0
and rounded to two decimals. -/
theorem dwell_rule_correct (t : Int) (r : EvalIn) :
    0 ≤ (evalRow t r).dwell ∧
    (r.loaded = none → (evalRow t r).dwell = 0) ∧
    (∀ a l c, r.appt = some a → r.loaded = some l → r.checkIn = some c →
      (evalRow t r).comp = "Late" →
      (evalRow t r).dwell = round2 (max (((l : ℚ) - (c : ℚ)) * 60 / 3600) 0)) ∧
    (∀ a l, r.appt = some a → r.loaded = some l →
      (evalRow t r).comp = "On Time" →
      (evalRow t r).dwell = round2 (max (((l : ℚ) - (a : ℚ)) * 60 / 3600) 0)) ∧
    (∀ a, r.appt = some a → r.checkIn = none → (evalRow t r).comp = "Late" →
      (evalRow t r).dwell = 0) := by
  obtain ⟨ty, ap, ci, ld⟩ := r
  cases ap with
  | none =>
    refine ⟨le_refl 0, fun _ => rfl, ?_, ?_, ?_⟩ <;> intros <;> simp_all
  | some a =>
    have hnn : ∀ q : ℚ, 0 ≤ round2 (max q 0) := fun q => round2_nonneg _ (le_max_right q 0)
    have hz : round2 (max (0 : ℚ) 0) = 0 := by rw [max_self]; exact round2_zero
    cases ci with
    | none =>
      cases ld with
      | none =>
        by_cases hc : t > (if ty = some "Live Load" then a + 15 else a + 1440)
        · have hE : evalRow t ⟨ty, some a, none, none⟩ =
            ⟨some (if ty = some "Live Load" then a + 15 else a + 1440), "Late",
              round2 (max 0 0)⟩ := by
            simp [evalRow, hc]
          refine ⟨by rw [hE]; exact hnn _, ?_, ?_, ?_, ?_⟩
          · intro hl
            rw [hE]; exact hz
          · intro a9 l9 c9 ha9 hl9 hci9 hcomp9
            exact absurd hci9 (by simp)
          · intro a9 l9 ha9 hl9 hcomp9
            exact absurd hl9 (by simp)
          · intro a9 ha9 hci9 hcomp9
            rw [hE]; exact hz
        · have hE : evalRow t ⟨ty, some a, none, none⟩ =
            ⟨some (if ty = some "Live Load" then a + 15 else a + 1440), "On Time",
              round2 (max 0 0)⟩ := by
            simp [evalRow, hc]
          refine ⟨by rw [hE]; exact hnn _, ?_, ?_, ?_, ?_⟩
          · intro hl
            rw [hE]; exact hz
          · intro a9 l9 c9 ha9 hl9 hci9 hcomp9
            exact absurd hci9 (by simp)
          · intro a9 l9 ha9 hl9 hcomp9
            exact absurd hl9 (by simp)
          · intro a9 ha9 hci9 hcomp9
            rw [hE] at hcomp9; simp at hcomp9
      | some l =>
        by_cases hc : t > (if ty = some "Live Load" then a + 15 else a + 1440)
        · have hE : evalRow t ⟨ty, some a, none, some l⟩ =
            ⟨some (if ty = some "Live Load" then a + 15 else a + 1440), "Late",
              round2 (max 0 0)⟩ := by
            simp [evalRow, hc]
          refine ⟨by rw [hE]; exact hnn _, ?_, ?_, ?_, ?_⟩
          · intro hl
            exact absurd hl (by simp)
          · intro a9 l9 c9 ha9 hl9 hci9 hcomp9
            exact absurd hci9 (by simp)
          · intro a9 l9 ha9 hl9 hcomp9
            rw [hE] at hcomp9; simp at hcomp9
          · intro a9 ha9 hci9 hcomp9
            rw [hE]; exact hz
        · have hE : evalRow t ⟨ty, some a, none, some l⟩ =
            ⟨some (if ty = some "Live Load" then a + 15 else a + 1440), "On Time",
              round2 (max (((l : ℚ) - (a : ℚ)) * 60 / 3600) 0)⟩ := by
            simp [evalRow, hc]
          refine ⟨by rw [hE]; exact hnn _, ?_, ?_, ?_, ?_⟩
          · intro hl
            exact absurd hl (by simp)
          · intro a9 l9 c9 ha9 hl9 hci9 hcomp9
            exact absurd hci9 (by simp)
          · intro a9 l9 ha9 hl9 hcomp9
            injection ha9 with ha9; injection hl9 with hl9; subst ha9; subst hl9; rw [hE]
          · intro a9 ha9 hci9 hcomp9
            rw [hE] at hcomp9; simp at hcomp9
    | some c =>
      cases ld with
      | none =>
        by_cases hc : c > (if ty = some "Live Load" then a + 15 else a + 1440)
        · have hE : evalRow t ⟨ty, some a, some c, none⟩ =
            ⟨some (if ty = some "Live Load" then a + 15 else a + 1440), "Late",
              round2 (max 0 0)⟩ := by
            simp [evalRow, hc]
          refine ⟨by rw [hE]; exact hnn _, ?_, ?_, ?_, ?_⟩
          · intro hl
            rw [hE]; exact hz
          · intro a9 l9 c9 ha9 hl9 hci9 hcomp9
            exact absurd hl9 (by simp)
          · intro a9 l9 ha9 hl9 hcomp9
            exact absurd hl9 (by simp)
          · intro a9 ha9 hci9 hcomp9
            exact absurd hci9 (by simp)
        · have hE : evalRow t ⟨ty, some a, some c, none⟩ =
            ⟨some (if ty = some "Live Load" then a + 15 else a + 1440), "On Time",
              round2 (max 0 0)⟩ := by
            simp [evalRow, hc]
          refine ⟨by rw [hE]; exact hnn _, ?_, ?_, ?_, ?_⟩
          · intro hl
            rw [hE]; exact hz
          · intro a9 l9 c9 ha9 hl9 hci9 hcomp9
            exact absurd hl9 (by simp)
          · intro a9 l9 ha9 hl9 hcomp9
            exact absurd hl9 (by simp)
          · intro a9 ha9 hci9 hcomp9
            exact absurd hci9 (by simp)
      | some l =>
        by_cases hc : c > (if ty = some "Live Load" then a + 15 else a + 1440)
        · have hE : evalRow t ⟨ty, some a, some c, some l⟩ =
            ⟨some (if ty = some "Live Load" then a + 15 else a + 1440), "Late",
              round2 (max (((l : ℚ) - (c : ℚ)) * 60 / 3600) 0)⟩ := by
            simp [evalRow, hc]
          refine ⟨by rw [hE]; exact hnn _, ?_, ?_, ?_, ?_⟩
          · intro hl
            exact absurd hl (by simp)
          · intro a9 l9 c9 ha9 hl9 hci9 hcomp9
            injection hl9 with hl9; injection hci9 with hci9; subst hl9; subst hci9; rw [hE]
          · intro a9 l9 ha9 hl9 hcomp9
            rw [hE] at hcomp9; simp at hcomp9
          · intro a9 ha9 hci9 hcomp9
            exact absurd hci9 (by simp)
        · have hE : evalRow t ⟨ty, some a, some c, some l⟩ =
            ⟨some (if ty = some "Live Load" then a + 15 else a + 1440), "On Time",
              round2 (max (((l : ℚ) - (a : ℚ)) * 60 / 3600) 0)⟩ := by
            simp [evalRow, hc]
          refine ⟨by rw [hE]; exact hnn _, ?_, ?_, ?_, ?_⟩
          · intro hl
            exact absurd hl (by simp)
          · intro a9 l9 c9 ha9 hl9 hci9 hcomp9
            rw [hE] at hcomp9; simp at hcomp9
          · intro a9 l9 ha9 hl9 hcomp9
            injection ha9 with ha9; injection hl9 with hl9; subst ha9; subst hl9; rw [hE]
          · intro a9 ha9 hci9 hcomp9
            exact absurd hci9 (by simp)

theorem dwell_rule_correct_witness :
    (evalRow 0 ⟨some "Drop", some 0, some 1500, some 1560⟩).dwell =
      round2 (max ((((1560 : Int) : ℚ) - ((1500 : Int) : ℚ)) * 60 / 3600) 0) :=
  (dwell_rule_correct 0 ⟨some "Drop", some 0, some 1500, some 1560⟩).2.2.1
    0 1560 1500 rfl rfl rfl (by decide)

theorem charListLt_iff (as bs : List Char) :
    charListLt as bs = true ↔ List.Lex (· < ·) as bs := by
  induction as generalizing bs with
  | nil =>
    cases bs with
    | nil => simp [charListLt]
    | cons b bs =>
      simp [charListLt]
      exact List.Lex.nil
  | cons a as ih =>
    cases bs with
    | nil => simp [charListLt]
    | cons b bs =>
      rw [charListLt]
      by_cases h1 : a < b
      · simp only [if_pos h1, true_iff]
        exact List.Lex.rel h1
      · rw [if_neg h1]
        by_cases h2 : b < a
        · rw [if_pos h2]
          refine iff_of_false (by simp) ?_
          intro h
          cases h with
          | rel hab => exact h1 hab
          | cons _ => exact lt_irrefl a h2
        · rw [if_neg h2]
          have hab : a = b := le_antisymm (not_lt.mp h2) (not_lt.mp h1)
          subst hab
          constructor
          · intro h
            exact List.Lex.cons ((ih bs).mp h)
          · intro h
            cases h with
            | rel hab => exact absurd hab h1
            | cons htail => exact (ih bs).mpr htail

theorem strLt_iff (u v : String) : charListLt u.data v.data = true ↔ u < v := by
  rw [charListLt_iff, String.lt_iff_toList_lt]
  rfl

theorem strLt_false (u v : String) : charListLt u.data v.data = false ↔ v ≤ u := by
  rw [← not_lt, ← strLt_iff u v]
  cases charListLt u.data v.data <;> simp

theorem keyLt_irrefl (x : Option String) : keyLt x x = false := by
  cases x with
  | none => rfl
  | some u =>
    show charListLt u.data u.data = false
    exact (strLt_false u u).mpr (le_refl u)

theorem keyLt_trans (x y z : Option String) (h1 : keyLt x y = true)
    (h2 : keyLt y z = true) : keyLt x z = true := by
  match x, y, z with
  | none, none, _ => cases h1
  | _, some _, none => cases h2
  | some _, none, _ => cases h1
  | none, some _, some _ => rfl
  | some u, some v, some w =>
    show charListLt u.data w.data = true
    exact (strLt_iff u w).mpr
      (lt_trans ((strLt_iff u v).mp h1) ((strLt_iff v w).mp h2))

theorem keyLt_asymm (x y : Option String) (h : keyLt x y = true) :
    keyLt y x = false := by
  by_contra hc
  have hc2 : keyLt y x = true := by
    cases hx : keyLt y x
    · exact absurd hx hc
    · rfl
  have := keyLt_trans x y x h hc2
  rw [keyLt_irrefl] at this
  exact Bool.false_ne_true this

theorem selectLatest_step_mem (es : List RawEvent) (acc : Option RawEvent) (w : RawEvent)
    (h : es.foldl (fun acc e =>
      match acc with
      | none => some e
      | some w => if keyLt (rawKey w) (rawKey e) then some e else some w) acc = some w) :
    w ∈ es ∨ acc = some w := by
  induction es generalizing acc with
  | nil => exact Or.inr h
  | cons x xs ih =>
    rw [List.foldl_cons] at h
    rcases ih _ h with h1 | h1
    · exact Or.inl (List.mem_cons_of_mem x h1)
    · cases acc with
      | none =>
        simp at h1
        exact Or.inl (h1 ▸ List.mem_cons_self x xs)
      | some v =>
        dsimp only at h1
        by_cases hk : keyLt (rawKey v) (rawKey x) = true
        · rw [if_pos hk] at h1
          simp at h1
          exact Or.inl (h1 ▸ List.mem_cons_self x xs)
        · rw [if_neg hk] at h1
          exact Or.inr h1

theorem selectLatest_mem (es : List RawEvent) (w : RawEvent)
    (h : selectLatest es = some w) : w ∈ es := by
  rcases selectLatest_step_mem es none w h with h1 | h1
  · exact h1
  · cases h1

theorem selectLatest_step_isSome (es : List RawEvent) (v : RawEvent) (acc : Option RawEvent)
    (h : acc = some v) :
    (es.foldl (fun acc e =>
      match acc with
      | none => some e
      | some w => if keyLt (rawKey w) (rawKey e) then some e else some w) acc).isSome := by
  induction es generalizing acc v with
  | nil => simp [h]
  | cons x xs ih =>
    rw [List.foldl_cons]
    subst h
    by_cases hk : keyLt (rawKey v) (rawKey x) = true
    · exact ih x _ (by simp [hk])
    · exact ih v _ (by simp [hk])

theorem selectLatest_isSome (es : List RawEvent) (h : es ≠ []) :
    (selectLatest es).isSome := by
  cases es with
  | nil => exact absurd rfl h
  | cons x xs =>
    rw [selectLatest, List.foldl_cons]
    exact selectLatest_step_isSome xs x _ rfl

theorem keyLt_false_trans (x y z : Option String) (h1 : keyLt x y = false)
    (h2 : keyLt y z = false) : keyLt x z = false := by
  match x, y, z with
  | none, none, none => rfl
  | none, none, some _ => simp [keyLt] at h2
  | none, some _, _ => simp [keyLt] at h1
  | some _, none, none => rfl
  | some _, none, some _ => simp [keyLt] at h2
  | some _, some _, none => rfl
  | some u, some v, some w =>
    show charListLt u.data w.data = false
    exact (strLt_false u w).mpr
      (le_trans ((strLt_false v w).mp h2) ((strLt_false u v).mp h1))

theorem keyLt_false_of_true_false (u x w : Option String) (hux : keyLt u x = true)
    (hwx : keyLt w x = false) : keyLt w u = false := by
  cases h : keyLt w u
  · rfl
  · rw [keyLt_trans w u x h hux] at hwx
    exact hwx

theorem selectLatest_step_max (es : List RawEvent) (acc : Option RawEvent) (w : RawEvent)
    (h : es.foldl (fun acc e =>
      match acc with
      | none => some e
      | some w => if keyLt (rawKey w) (rawKey e) then some e else some w) acc = some w) :
    (∀ e ∈ es, keyLt (rawKey w) (rawKey e) = false) ∧
      (∀ v, acc = some v → keyLt (rawKey w) (rawKey v) = false) := by
  induction es generalizing acc with
  | nil =>
    simp only [List.foldl_nil] at h
    refine ⟨fun e he => absurd he (List.not_mem_nil e), fun v hv => ?_⟩
    rw [h] at hv
    injection hv with hv
    rw [hv, keyLt_irrefl]
  | cons x xs ih =>
    rw [List.foldl_cons] at h
    obtain ⟨hxs, hacc⟩ := ih _ h
    have hx : keyLt (rawKey w) (rawKey x) = false := by
      cases acc with
      | none => exact hacc x rfl
      | some v =>
        dsimp only at hacc
        by_cases hk : keyLt (rawKey v) (rawKey x) = true
        · rw [if_pos hk] at hacc
          exact hacc x rfl
        · rw [if_neg hk] at hacc
          have hv := hacc v rfl
          have hvx : keyLt (rawKey v) (rawKey x) = false := Bool.not_eq_true _ |>.mp hk
          exact keyLt_false_trans (rawKey w) (rawKey v) (rawKey x) hv hvx
    refine ⟨fun e he => ?_, fun v hv => ?_⟩
    · rcases List.mem_cons.mp he with h1 | h1
      · exact h1 ▸ hx
      · exact hxs e h1
    · cases acc with
      | none => cases hv
      | some u =>
        dsimp only at hacc
        injection hv with hv
        rw [← hv]
        by_cases hk : keyLt (rawKey u) (rawKey x) = true
        · exact keyLt_false_of_true_false (rawKey u) (rawKey x) (rawKey w) hk hx
        · rw [if_neg hk] at hacc
          exact hacc u rfl

theorem selectLatest_max (es : List RawEvent) (w : RawEvent)
    (h : selectLatest es = some w) :
    ∀ e ∈ es, keyLt (rawKey w) (rawKey e) = false :=
  (selectLatest_step_max es none w h).1

theorem selectLatest_unique_max (l : List RawEvent) (x : RawEvent)
    (hx : x ∈ l) (hmax : ∀ e ∈ l, e ≠ x → keyLt (rawKey e) (rawKey x) = true) :
    selectLatest l = some x := by
  rw [selectLatest]
  suffices hgen : ∀ (l' : List RawEvent) (acc : Option RawEvent),
      (∀ e ∈ l', e ≠ x → keyLt (rawKey e) (rawKey x) = true) →
      ((x ∈ l' ∧ (acc = none ∨ ∃ v, acc = some v ∧ keyLt (rawKey v) (rawKey x) = true)) ∨
        acc = some x) →
      l'.foldl (fun acc e =>
        match acc with
        | none => some e
        | some w => if keyLt (rawKey w) (rawKey e) then some e else some w) acc = some x by
    exact hgen l none hmax (Or.inl ⟨hx, Or.inl rfl⟩)
  intro l'
  induction l' with
  | nil =>
    intro acc _ hst
    rcases hst with ⟨hmem, _⟩ | hacc
    · exact absurd hmem (List.not_mem_nil x)
    · simpa using hacc
  | cons e l'' ih =>
    intro acc hmax' hst
    rw [List.foldl_cons]
    rcases hst with ⟨hmem, hacc⟩ | hacc
    · by_cases hex : e = x
      · subst hex
        rcases hacc with hnone | ⟨v, hv, hvlt⟩
        · subst hnone
          exact ih _ (fun f hf => hmax' f (List.mem_cons_of_mem e hf)) (Or.inr rfl)
        · subst hv
          dsimp only
          rw [if_pos hvlt]
          exact ih _ (fun f hf => hmax' f (List.mem_cons_of_mem e hf)) (Or.inr rfl)
      · have hmem'' : x ∈ l'' := by
          rcases List.mem_cons.mp hmem with h1 | h1
          · exact absurd h1.symm hex
          · exact h1
        have helt : keyLt (rawKey e) (rawKey x) = true :=
          hmax' e (List.mem_cons_self e l'') hex
        rcases hacc with hnone | ⟨v, hv, hvlt⟩
        · subst hnone
          exact ih _ (fun f hf => hmax' f (List.mem_cons_of_mem e hf))
            (Or.inl ⟨hmem'', Or.inr ⟨e, rfl, helt⟩⟩)
        · subst hv
          dsimp only
          by_cases hk : keyLt (rawKey v) (rawKey e) = true
          · rw [if_pos hk]
            exact ih _ (fun f hf => hmax' f (List.mem_cons_of_mem e hf))
              (Or.inl ⟨hmem'', Or.inr ⟨e, rfl, helt⟩⟩)
          · rw [if_neg hk]
            exact ih _ (fun f hf => hmax' f (List.mem_cons_of_mem e hf))
              (Or.inl ⟨hmem'', Or.inr ⟨v, rfl, hvlt⟩⟩)
    · subst hacc
      dsimp only
      by_cases hex : e = x
      · subst hex
        rw [if_neg (by rw [keyLt_irrefl]; exact Bool.false_ne_true)]
        exact ih _ (fun f hf => hmax' f (List.mem_cons_of_mem e hf)) (Or.inr rfl)
      · have helt := hmax' e (List.mem_cons_self e l'') hex
        rw [if_neg (by rw [keyLt_asymm _ _ helt]; exact Bool.false_ne_true)]
        exact ih _ (fun f hf => hmax' f (List.mem_cons_of_mem e hf)) (Or.inr rfl)

theorem selectLatest_all_unknown (l : List RawEvent)
    (h : ∀ e ∈ l, rawKey e = none) : selectLatest l = l.head? := by
  cases l with
  | nil => rfl
  | cons x xs =>
    rw [selectLatest, List.foldl_cons, List.head?_cons]
    dsimp only
    suffices hgen : ∀ (l' : List RawEvent) (w : RawEvent), rawKey w = none →
        (∀ e ∈ l', rawKey e = none) →
        l'.foldl (fun acc e =>
          match acc with
          | none => some e
          | some w => if keyLt (rawKey w) (rawKey e) then some e else some w)
          (some w) = some w by
      exact hgen xs x (h x (List.mem_cons_self x xs))
        (fun e he => h e (List.mem_cons_of_mem x he))
    intro l'
    induction l' with
    | nil => intro w _ _; rfl
    | cons e l'' ih =>
      intro w hw hall
      rw [List.foldl_cons]
      dsimp only
      rw [hw, hall e (List.mem_cons_self e l''), if_neg (by rw [keyLt_irrefl]; exact Bool.false_ne_true)]
      exact ih w hw (fun f hf => hall f (List.mem_cons_of_mem e hf))

theorem mem_firstUniq (l : List (Option String)) (a : Option String) :
    a ∈ firstUniq l ↔ a ∈ l := by
  induction l with
  | nil => rfl
  | cons x xs ih =>
    rw [firstUniq]
    by_cases hx : x ∈ firstUniq xs
    · rw [if_pos hx]
      constructor
      · intro h; exact List.mem_cons_of_mem x (ih.mp h)
      · intro h
        rcases List.mem_cons.mp h with h1 | h1
        · exact h1 ▸ hx
        · exact ih.mpr h1
    · rw [if_neg hx]
      constructor
      · intro h
        rcases List.mem_cons.mp h with h1 | h1
        · exact h1 ▸ List.mem_cons_self x xs
        · exact List.mem_cons_of_mem x (ih.mp h1)
      · intro h
        rcases List.mem_cons.mp h with h1 | h1
        · exact h1 ▸ List.mem_cons_self x (firstUniq xs)
        · exact List.mem_cons_of_mem x (ih.mpr h1)

theorem nodup_firstUniq (l : List (Option String)) : (firstUniq l).Nodup := by
  induction l with
  | nil => exact List.nodup_nil
  | cons x xs ih =>
    rw [firstUniq]
    by_cases hx : x ∈ firstUniq xs
    · rw [if_pos hx]; exact ih
    · rw [if_neg hx]; exact List.nodup_cons.mpr ⟨hx, ih⟩

theorem reduceLatest_keys_general (es : List RawEvent) (keys : List (Option String))
    (h : ∀ s ∈ keys, ∃ e ∈ es, e.sid = s) :
    (keys.filterMap
      (fun s => selectLatest (es.filter (fun e => e.sid == s)))).map (fun e => e.sid) = keys := by
  induction keys with
  | nil => rfl
  | cons s ks ih =>
    obtain ⟨e, he, hes⟩ := h s (List.mem_cons_self s ks)
    have hef : e ∈ es.filter (fun e => e.sid == s) :=
      List.mem_filter.mpr ⟨he, by simp [hes]⟩
    have hne : es.filter (fun e => e.sid == s) ≠ [] := List.ne_nil_of_mem hef
    obtain ⟨w, hw⟩ := Option.isSome_iff_exists.mp (selectLatest_isSome _ hne)
    have hwmem := selectLatest_mem _ _ hw
    have hwsid : w.sid = s := by
      have := (List.mem_filter.mp hwmem).2
      simpa using this
    rw [List.filterMap_cons, hw, List.map_cons, hwsid,
      ih (fun s' hs' => h s' (List.mem_cons_of_mem s hs'))]

theorem reduceLatest_map_sid (es : List RawEvent) :
    (reduceLatest es).map (fun e => e.sid) = firstUniq (es.map (fun e => e.sid)) := by
  rw [reduceLatest]
  apply reduceLatest_keys_general
  intro s hs
  have : s ∈ es.map (fun e => e.sid) := (mem_firstUniq _ s).mp hs
  obtain ⟨e, he, hes⟩ := List.mem_map.mp this
  exact ⟨e, he, hes⟩

theorem mem_reduceLatest (es : List RawEvent) (r : RawEvent)
    (h : r ∈ reduceLatest es) :
    r ∈ es ∧ ∀ e ∈ es, e.sid = r.sid → keyLt (rawKey r) (rawKey e) = false := by
  rw [reduceLatest] at h
  obtain ⟨s, _, hsel⟩ := List.mem_filterMap.mp h
  have hrf := selectLatest_mem _ _ hsel
  obtain ⟨hres, hrsid⟩ := List.mem_filter.mp hrf
  have hrs : r.sid = s := by simpa using hrsid
  refine ⟨hres, fun e he hesid => ?_⟩
  exact selectLatest_max _ _ hsel e (List.mem_filter.mpr ⟨he, by simp [hesid, hrs]⟩)

theorem countP_beq_one (l : List (Option String)) (s : Option String)
    (hn : l.Nodup) (hm : s ∈ l) : l.countP (fun x => x == s) = 1 := by
  induction l with
  | nil => exact absurd hm (List.not_mem_nil s)
  | cons x xs ih =>
    obtain ⟨hx, hxs⟩ := List.nodup_cons.mp hn
    rw [List.countP_cons]
    by_cases hxe : x = s
    · subst hxe
      have hz : xs.countP (fun y => y == x) = 0 := by
        apply List.countP_eq_zero.mpr
        intro y hy
        simp only [beq_iff_eq]
        intro hyx
        exact hx (hyx ▸ hy)
      simp [hz]
    · have hm' : s ∈ xs := by
        rcases List.mem_cons.mp hm with h1 | h1
        · exact absurd h1.symm hxe
        · exact h1
      simp [ih hxs hm', hxe]

theorem reduceLatest_one_per_sid (es : List RawEvent) (s : Option String)
    (h : s ∈ es.map (fun e => e.sid)) :
    ((reduceLatest es).filter (fun r => r.sid == s)).length = 1 := by
  have hmap := reduceLatest_map_sid es
  rw [← List.countP_eq_length_filter]
  have hcp : (reduceLatest es).countP (fun r => r.sid == s) =
      ((reduceLatest es).map (fun e => e.sid)).countP (fun x => x == s) := by
    rw [List.countP_map]
    rfl
  rw [hcp, hmap]
  exact countP_beq_one _ s (nodup_firstUniq _) ((mem_firstUniq _ s).mpr h)

/-- C3 (counterexample): the ranking key is the `'%m-%d-%Y %H:%M'`-formatted
VARCHAR compared lexicographically, not the timestamp itself, so across a
year boundary the reducer keeps an event whose `loaded_at` is chronologically
smaller (first two conjuncts); and among exactly-equal keys the surviving
row depends on input order, so a reordered input can select a different
event (third conjunct). -/
theorem reduce_latest_claim_counterexample :
    (reduceLatest [⟨some "1", "Live Load", "CLOSED", some ⟨2024, 12, 31, 23, 0⟩, none⟩,
        ⟨some "1", "Live Load", "CLOSED", some ⟨2025, 1, 1, 1, 0⟩, none⟩] =
      [⟨some "1", "Live Load", "CLOSED", some ⟨2024, 12, 31, 23, 0⟩, none⟩]) ∧
    dtMinutes ⟨2024, 12, 31, 23, 0⟩ < dtMinutes ⟨2025, 1, 1, 1, 0⟩ ∧
    (selectLatest [⟨some "2", "Live Load", "CLOSED", some ⟨2024, 3, 1, 9, 0⟩, none⟩,
        ⟨some "2", "Live Load", "CLOSED", some ⟨2024, 3, 1, 9, 0⟩, some ⟨2024, 3, 1, 10, 0⟩⟩] ≠
      selectLatest [⟨some "2", "Live Load", "CLOSED", some ⟨2024, 3, 1, 9, 0⟩, some ⟨2024, 3, 1, 10, 0⟩⟩,
        ⟨some "2", "Live Load", "CLOSED", some ⟨2024, 3, 1, 9, 0⟩, none⟩]) := by
  refine ⟨?_, by decide, by decide⟩
  decide

/-- C3 (amended): the reducer emits exactly one event per distinct
`SHIPMENT_ID`; the surviving event belongs to the feed and its formatted
`"Date/Time"` key is maximal within its shipment group (unknown keys are the
lowest); the selection is a function of the input list, and is additionally
invariant under reordering whenever the group's maximal key is attained by a
single event; a group with only unknown keys keeps its first event. -/
theorem reduce_latest_amended (es : List RawEvent) :
    ((reduceLatest es).map (fun e => e.sid) = firstUniq (es.map (fun e => e.sid))) ∧
    (∀ s, s ∈ es.map (fun e => e.sid) →
      ((reduceLatest es).filter (fun r => r.sid == s)).length = 1) ∧
    (∀ r ∈ reduceLatest es, r ∈ es ∧
      ∀ e ∈ es, e.sid = r.sid → keyLt (rawKey r) (rawKey e) = false) ∧
    (∀ (l l' : List RawEvent) (x : RawEvent), l.Perm l' → x ∈ l →
      (∀ e ∈ l, e ≠ x → keyLt (rawKey e) (rawKey x) = true) →
      selectLatest l = some x ∧ selectLatest l' = some x) ∧
    (∀ l : List RawEvent, (∀ e ∈ l, rawKey e = none) → selectLatest l = l.head?) := by
  refine ⟨reduceLatest_map_sid es, reduceLatest_one_per_sid es,
    mem_reduceLatest es, ?_, selectLatest_all_unknown⟩
  intro l l' x hperm hx hmax
  refine ⟨selectLatest_unique_max l x hx hmax, ?_⟩
  exact selectLatest_unique_max l' x (hperm.mem_iff.mp hx)
    (fun e he hne => hmax e (hperm.mem_iff.mpr he) hne)

theorem reduce_latest_amended_witness :
    ((reduceLatest [⟨some "7", "Pickup Load", "CLOSED", none, none⟩]).filter
      (fun r => r.sid == some "7")).length = 1 :=
  (reduce_latest_amended [⟨some "7", "Pickup Load", "CLOSED", none, none⟩]).2.1
    (some "7") (by decide)

/-- C6: the activity filter keeps exactly the events with a present
`SHIPMENT_ID`, activity status `CLOSED` and visit type among
`Live Load`, `Pickup Load`, `Pickup Empty`; it preserves input order
(the result is a sublist), and a feed with no eligible events yields the
empty result rather than an error. -/
theorem activity_filter_correct (es : List RawEvent) :
    (∀ e, e ∈ activityFilter es ↔ e ∈ es ∧ e.sid ≠ none ∧ e.activityType = "CLOSED" ∧
      (e.visitType = "Live Load" ∨ e.visitType = "Pickup Load" ∨ e.visitType = "Pickup Empty")) ∧
    (activityFilter es).Sublist es ∧
    ((∀ e ∈ es, eligible e = false) → activityFilter es = []) := by
  refine ⟨fun e => ?_, List.filter_sublist es, fun h => List.filter_eq_nil_iff.mpr ?_⟩
  · rw [activityFilter, List.mem_filter, eligible]
    constructor
    · rintro ⟨hmem, helig⟩
      simp only [Bool.and_eq_true, Bool.or_eq_true, decide_eq_true_eq,
        Option.isSome_iff_ne_none] at helig
      exact ⟨hmem, helig.1.2, helig.2, or_assoc.mp helig.1.1⟩
    · rintro ⟨hmem, hsid, hact, hvt⟩
      refine ⟨hmem, ?_⟩
      simp only [Bool.and_eq_true, Bool.or_eq_true, decide_eq_true_eq,
        Option.isSome_iff_ne_none]
      exact ⟨⟨or_assoc.mpr hvt, hsid⟩, hact⟩
  · intro e he
    rw [Bool.not_eq_true]
    exact h e he

theorem activity_filter_correct_witness :
    activityFilter [⟨some "3", "Drop Load", "CLOSED", none, none⟩] = [] :=
  (activity_filter_correct [⟨some "3", "Drop Load", "CLOSED", none, none⟩]).2.2
    (by decide)

theorem mem_orNull (l : List α) (x : Option α) :
    x ∈ orNull l ↔ (l = [] ∧ x = none) ∨ ∃ y ∈ l, x = some y := by
  match l with
  | [] => simp [orNull]
  | z :: zs =>
    have hred : orNull (z :: zs) = (z :: zs).map some := rfl
    rw [hred]
    constructor
    · intro h
      obtain ⟨y, hy, hxy⟩ := List.mem_map.mp h
      exact Or.inr ⟨y, hy, hxy.symm⟩
    · rintro (⟨hnil, _⟩ | ⟨y, hy, rfl⟩)
      · exact absurd hnil (List.cons_ne_nil z zs)
      · exact List.mem_map.mpr ⟨y, hy, rfl⟩

theorem mem_linkRows (red : List RawEvent) (av : List AvRec) (ov : List OvRec)
    (r : LinkedRow) :
    r ∈ linkRows red av ov ↔ ∃ e ∈ red, ∃ a ∈ orNull (avMatches av e),
      ∃ o ∈ orNull (ovMatches ov e), r = mkRow e a o := by
  rw [linkRows]
  simp only [List.mem_flatMap, List.mem_map]
  constructor
  · rintro ⟨e, he, a, ha, o, ho, rfl⟩
    exact ⟨e, he, a, ha, o, ho, rfl⟩
  · rintro ⟨e, he, a, ha, o, ho, rfl⟩
    exact ⟨e, he, a, ha, o, ho, rfl⟩

theorem mergedRows_provenance (raw : List RawEvent) (av : List AvRec) (ov : List OvRec)
    (r : LinkedRow) (h : r ∈ mergedRows raw av ov) :
    ∃ e ∈ reduceLatest (activityFilter raw), r.sidRaw = e.sid ∧ r.loaded = e.loaded ∧
      r.checkOut = e.checkedOut ∧ r.visitType = e.visitType ∧
      ((∃ a ∈ av, rawEq e.sid a.key = true ∧ r.apptType = a.apptType ∧
        r.orderStatus = a.orderStatus ∧ r.carrier = a.carrier) ∨
       ((∀ a ∈ av, rawEq e.sid a.key = false) ∧ r.apptType = none ∧
        r.orderStatus = none ∧ r.carrier = none)) ∧
      ((∃ o ∈ ov, rawEq e.sid o.key = true ∧ r.apptDate = o.apptDate ∧
        r.checkIn = o.checkIn) ∨
       ((∀ o ∈ ov, rawEq e.sid o.key = false) ∧ r.apptDate = none ∧ r.checkIn = none)) := by
  rw [mergedRows] at h
  obtain ⟨e, he, a, ha, o, ho, rfl⟩ := (mem_linkRows _ av ov r).mp h
  refine ⟨e, he, rfl, rfl, rfl, rfl, ?_, ?_⟩
  · rcases (mem_orNull _ a).mp ha with ⟨hnil, rfl⟩ | ⟨y, hy, rfl⟩
    · refine Or.inr ⟨fun a' ha' => ?_, rfl, rfl, rfl⟩
      have := List.filter_eq_nil_iff.mp hnil a' ha'
      rw [Bool.not_eq_true] at this
      exact this
    · obtain ⟨hyav, hykey⟩ := List.mem_filter.mp hy
      exact Or.inl ⟨y, hyav, hykey, rfl, rfl, rfl⟩
  · rcases (mem_orNull _ o).mp ho with ⟨hnil, rfl⟩ | ⟨y, hy, rfl⟩
    · refine Or.inr ⟨fun o' ho' => ?_, rfl, rfl⟩
      have := List.filter_eq_nil_iff.mp hnil o' ho'
      rw [Bool.not_eq_true] at this
      exact this
    · obtain ⟨hyov, hykey⟩ := List.mem_filter.mp hy
      exact Or.inl ⟨y, hyov, hykey, rfl, rfl⟩

theorem orNull_length_one (l : List α) (h : l.length ≤ 1) : (orNull l).length = 1 := by
  match l with
  | [] => rfl
  | [x] => rfl
  | x :: y :: t => simp at h

theorem keyNodup_filter_le (l : List α) (f : α → Option String)
    (hn : ((l.map f).filterMap id).Nodup) (u : String) :
    (l.filter (fun a => f a == some u)).length ≤ 1 := by
  induction l with
  | nil => simp
  | cons a t ih =>
    rw [List.map_cons, List.filterMap_cons] at hn
    rw [List.filter_cons]
    cases hfa : f a with
    | none =>
      rw [hfa] at hn
      have hn2 : ((t.map f).filterMap id).Nodup := hn
      simp only [hfa, show ((none : Option String) == some u) = false from rfl,
        Bool.false_eq_true, if_false]
      exact ih hn2
    | some v =>
      rw [hfa] at hn
      have hn2 : (v :: (t.map f).filterMap id).Nodup := hn
      obtain ⟨hvnot, hrest⟩ := List.nodup_cons.mp hn2
      by_cases hvu : v = u
      · subst hvu
        have hempty : t.filter (fun a => f a == some v) = [] := by
          apply List.filter_eq_nil_iff.mpr
          intro b hb hbeq
          simp only [beq_iff_eq] at hbeq
          apply hvnot
          exact List.mem_filterMap.mpr ⟨some v, List.mem_map.mpr ⟨b, hb, hbeq⟩, rfl⟩
        simp only [hfa, show ((some v : Option String) == some v) = true by simp,
          if_pos rfl, hempty]
        simp
      · simp only [hfa, show ((some v : Option String) == some u) = false by simp [hvu],
          Bool.false_eq_true, if_false]
        exact ih hrest

theorem avMatches_eq_keyFilter (av : List AvRec) (e : RawEvent) (u : String)
    (h : e.sid = some u) :
    avMatches av e = av.filter (fun a => a.key == some u) := by
  rw [avMatches]
  apply List.filter_congr
  intro a _
  rw [h]
  cases a.key <;> simp [rawEq, eq_comm]

theorem ovMatches_eq_keyFilter (ov : List OvRec) (e : RawEvent) (u : String)
    (h : e.sid = some u) :
    ovMatches ov e = ov.filter (fun o => o.key == some u) := by
  rw [ovMatches]
  apply List.filter_congr
  intro o _
  rw [h]
  cases o.key <;> simp [rawEq, eq_comm]

theorem avMatches_none (av : List AvRec) (e : RawEvent) (h : e.sid = none) :
    avMatches av e = [] := by
  rw [avMatches]
  apply List.filter_eq_nil_iff.mpr
  intro a _
  rw [h]
  simp [rawEq]

theorem ovMatches_none (ov : List OvRec) (e : RawEvent) (h : e.sid = none) :
    ovMatches ov e = [] := by
  rw [ovMatches]
  apply List.filter_eq_nil_iff.mpr
  intro o _
  rw [h]
  simp [rawEq]

theorem rowsFor_length (av : List AvRec) (ov : List OvRec) (e : RawEvent)
    (hav : ((av.map (fun a => a.key)).filterMap id).Nodup)
    (hov : ((ov.map (fun o => o.key)).filterMap id).Nodup) :
    ((orNull (avMatches av e)).flatMap (fun a =>
      (orNull (ovMatches ov e)).map (fun o => mkRow e a o))).length = 1 := by
  have hA : (orNull (avMatches av e)).length = 1 := by
    apply orNull_length_one
    cases hsid : e.sid with
    | none => rw [avMatches_none av e hsid]; simp
    | some u => rw [avMatches_eq_keyFilter av e u hsid]; exact keyNodup_filter_le av _ hav u
  have hO : (orNull (ovMatches ov e)).length = 1 := by
    apply orNull_length_one
    cases hsid : e.sid with
    | none => rw [ovMatches_none ov e hsid]; simp
    | some u => rw [ovMatches_eq_keyFilter ov e u hsid]; exact keyNodup_filter_le ov _ hov u
  obtain ⟨a0, ha0⟩ := List.length_eq_one.mp hA
  obtain ⟨o0, ho0⟩ := List.length_eq_one.mp hO
  rw [ha0, ho0]
  rfl

theorem linkRows_filter_le (red : List RawEvent) (av : List AvRec) (ov : List OvRec)
    (hnodup : (red.map (fun e => e.sid)).Nodup)
    (hav : ((av.map (fun a => a.key)).filterMap id).Nodup)
    (hov : ((ov.map (fun o => o.key)).filterMap id).Nodup)
    (s : Option String) :
    ((linkRows red av ov).filter (fun r => r.sidRaw == s)).length ≤ 1 := by
  induction red with
  | nil => simp [linkRows]
  | cons e t ih =>
    rw [List.map_cons, List.nodup_cons] at hnodup
    obtain ⟨hesid, hrest⟩ := hnodup
    have hsplit : linkRows (e :: t) av ov =
        ((orNull (avMatches av e)).flatMap (fun a =>
          (orNull (ovMatches ov e)).map (fun o => mkRow e a o))) ++ linkRows t av ov := by
      rw [linkRows, List.flatMap_cons]
      rfl
    rw [hsplit, List.filter_append, List.length_append]
    by_cases hs : (e.sid == s) = true
    · have htail : (linkRows t av ov).filter (fun r => r.sidRaw == s) = [] := by
        apply List.filter_eq_nil_iff.mpr
        intro r hr hbeq
        obtain ⟨e', he', a, ha, o, ho, rfl⟩ := (mem_linkRows t av ov r).mp hr
        simp only [mkRow, beq_iff_eq] at hbeq
        apply hesid
        rw [beq_iff_eq] at hs
        rw [hs, ← hbeq]
        exact List.mem_map.mpr ⟨e', he', rfl⟩
      rw [htail]
      simp only [List.length_nil, Nat.add_zero]
      calc (List.filter (fun r => r.sidRaw == s)
            ((orNull (avMatches av e)).flatMap (fun a =>
              (orNull (ovMatches ov e)).map (fun o => mkRow e a o)))).length
          ≤ ((orNull (avMatches av e)).flatMap (fun a =>
              (orNull (ovMatches ov e)).map (fun o => mkRow e a o))).length :=
            List.length_filter_le _ _
        _ = 1 := rowsFor_length av ov e hav hov
    · have hhead : ((orNull (avMatches av e)).flatMap (fun a =>
          (orNull (ovMatches ov e)).map (fun o => mkRow e a o))).filter
            (fun r => r.sidRaw == s) = [] := by
        apply List.filter_eq_nil_iff.mpr
        intro r hr hbeq
        obtain ⟨a, ha, hmem⟩ := List.mem_flatMap.mp hr
        obtain ⟨o, ho, hro⟩ := List.mem_map.mp hmem
        rw [← hro] at hbeq
        simp only [mkRow] at hbeq
        exact hs hbeq
      rw [hhead]
      simp only [List.length_nil, Nat.zero_add]
      exact ih hrest

/-- C7 (counterexample): with two appointment-view records sharing the
raw key `"1"`, the LEFT JOIN emits one linked row per matching record, so a
single eligible event yields two rows for shipment `"1"`, both surviving
the mandatory-field drop. -/
theorem linked_one_per_shipment_counterexample :
    ((complianceInput [⟨some "1", "Live Load", "CLOSED", some ⟨2024, 3, 1, 9, 0⟩, none⟩]
      [⟨some "1", some "Live Load", some "Open", some "A"⟩,
       ⟨some "1", some "Live Load", some "Open", some "B"⟩]
      [⟨some "1", some "03-01-2024 08:00", none⟩]).filter
        (fun r => r.sidRaw == some "1")).length = 2 := by
  decide

/-- C7 (amended): a linked row always descends from an eligible raw event
(a shipment with no eligible activity event never appears); and provided
each lookup feed carries at most one record per raw identifier (its
non-null keys are pairwise distinct), the linked output — and hence the
compliance input after the mandatory-field drop — has at most one row per
shipment identifier. -/
theorem linked_one_per_shipment_amended (raw : List RawEvent) (av : List AvRec)
    (ov : List OvRec)
    (hav : ((av.map (fun a => a.key)).filterMap id).Nodup)
    (hov : ((ov.map (fun o => o.key)).filterMap id).Nodup) :
    (∀ r ∈ mergedRows raw av ov, ∃ e ∈ raw, eligible e = true ∧ r.sidRaw = e.sid) ∧
    (∀ s, ((mergedRows raw av ov).filter (fun r => r.sidRaw == s)).length ≤ 1) ∧
    (∀ s, ((complianceInput raw av ov).filter (fun r => r.sidRaw == s)).length ≤ 1) := by
  have hnodup : ((reduceLatest (activityFilter raw)).map (fun e => e.sid)).Nodup := by
    rw [reduceLatest_map_sid]
    exact nodup_firstUniq _
  have h2 : ∀ s, ((mergedRows raw av ov).filter (fun r => r.sidRaw == s)).length ≤ 1 :=
    fun s => linkRows_filter_le _ av ov hnodup hav hov s
  refine ⟨?_, h2, ?_⟩
  · intro r hr
    obtain ⟨e, he, hsid, -⟩ := mergedRows_provenance raw av ov r hr
    have hef := (mem_reduceLatest _ e he).1
    obtain ⟨heraw, helig⟩ := List.mem_filter.mp hef
    exact ⟨e, heraw, helig, hsid⟩
  · intro s
    have hsub : List.Sublist ((complianceInput raw av ov).filter (fun r => r.sidRaw == s))
        ((mergedRows raw av ov).filter (fun r => r.sidRaw == s)) :=
      List.Sublist.filter _ (List.filter_sublist _)
    exact le_trans hsub.length_le (h2 s)

theorem linked_one_per_shipment_witness :
    ((mergedRows [⟨some "1", "Live Load", "CLOSED", some ⟨2024, 3, 1, 9, 0⟩, none⟩]
      [⟨some "1", some "Live Load", some "Open", some "A"⟩]
      [⟨some "1", some "03-01-2024 08:00", none⟩]).filter
        (fun r => r.sidRaw == some "1")).length ≤ 1 :=
  (linked_one_per_shipment_amended
    [⟨some "1", "Live Load", "CLOSED", some ⟨2024, 3, 1, 9, 0⟩, none⟩]
    [⟨some "1", some "Live Load", some "Open", some "A"⟩]
    [⟨some "1", some "03-01-2024 08:00", none⟩]
    (by decide) (by decide)).2.1 (some "1")

/-- C4 (counterexample): the two raw representations `"1,234"` and `"1234"`
share the canonical form the spec prescribes, yet the join produces an
unmatched (all-absent) appointment side, because the `ON` conditions compare
the raw values and line 106's canonicalization touches only the emitted
column. -/
theorem record_linker_claim_counterexample :
    canonId "1,234" = canonId "1234" ∧ ("1,234" : String) ≠ "1234" ∧
    mergedRows [⟨some "1234", "Live Load", "CLOSED", some ⟨2024, 3, 1, 9, 0⟩, none⟩]
      [⟨some "1,234", some "Live Load", some "Open", some "NFI"⟩] [] =
      [{ sidRaw := some "1234", apptType := none, orderStatus := none, carrier := none,
         apptDate := none, checkIn := none, checkOut := none,
         loaded := some ⟨2024, 3, 1, 9, 0⟩, visitType := "Live Load",
         activityType := "CLOSED" }] := by
  decide

/-- C4 (amended): every linked row descends from a reduced event, and its
appointment side carries the fields of an appointment record whose raw key
equals the event's raw `SHIPMENT_ID` — or is entirely absent when no raw
key equals it — and likewise for the order side: the lookups compare raw
identifiers with no normalization at the join boundary. -/
theorem record_linker_amended (raw : List RawEvent) (av : List AvRec) (ov : List OvRec)
    (r : LinkedRow) (h : r ∈ mergedRows raw av ov) :
    ∃ e ∈ reduceLatest (activityFilter raw), r.sidRaw = e.sid ∧ r.loaded = e.loaded ∧
      r.checkOut = e.checkedOut ∧ r.visitType = e.visitType ∧
      ((∃ a ∈ av, rawEq e.sid a.key = true ∧ r.apptType = a.apptType ∧
        r.orderStatus = a.orderStatus ∧ r.carrier = a.carrier) ∨
       ((∀ a ∈ av, rawEq e.sid a.key = false) ∧ r.apptType = none ∧
        r.orderStatus = none ∧ r.carrier = none)) ∧
      ((∃ o ∈ ov, rawEq e.sid o.key = true ∧ r.apptDate = o.apptDate ∧
        r.checkIn = o.checkIn) ∨
       ((∀ o ∈ ov, rawEq e.sid o.key = false) ∧ r.apptDate = none ∧ r.checkIn = none)) :=
  mergedRows_provenance raw av ov r h

theorem record_linker_amended_witness :
    ∃ e ∈ reduceLatest (activityFilter [wEvent]), wRow.sidRaw = e.sid ∧
      wRow.loaded = e.loaded ∧ wRow.checkOut = e.checkedOut ∧
      wRow.visitType = e.visitType ∧
      ((∃ a ∈ [wAv], rawEq e.sid a.key = true ∧ wRow.apptType = a.apptType ∧
        wRow.orderStatus = a.orderStatus ∧ wRow.carrier = a.carrier) ∨
       ((∀ a ∈ [wAv], rawEq e.sid a.key = false) ∧ wRow.apptType = none ∧
        wRow.orderStatus = none ∧ wRow.carrier = none)) ∧
      ((∃ o ∈ ([] : List OvRec), rawEq e.sid o.key = true ∧
        wRow.apptDate = o.apptDate ∧ wRow.checkIn = o.checkIn) ∨
       ((∀ o ∈ ([] : List OvRec), rawEq e.sid o.key = false) ∧
        wRow.apptDate = none ∧ wRow.checkIn = none)) :=
  record_linker_amended [wEvent] [wAv] [] wRow (by decide)

/-- C5: a row survives to the compliance input exactly when it is a linked
row whose `Carrier` and `Appointment Date` are present; under the CSV
ingestion invariant that an appointment record never carries an
empty-string carrier (pandas reads an empty cell as a missing value, not
`""`), every surviving row has a non-empty carrier and a known appointment
date; rows missing either are dropped entirely, a normal filtering outcome
rather than an error. -/
theorem compliance_record_filter (raw : List RawEvent) (av : List AvRec) (ov : List OvRec)
    (hcar : ∀ a ∈ av, a.carrier ≠ some "") :
    (∀ r, r ∈ complianceInput raw av ov ↔
      r ∈ mergedRows raw av ov ∧ r.carrier ≠ none ∧ r.apptDate ≠ none) ∧
    (∀ r ∈ complianceInput raw av ov, (∃ s, r.carrier = some s ∧ s ≠ "") ∧
      r.apptDate ≠ none) := by
  have hiff : ∀ r, r ∈ complianceInput raw av ov ↔
      r ∈ mergedRows raw av ov ∧ r.carrier ≠ none ∧ r.apptDate ≠ none := by
    intro r
    rw [complianceInput, dropMissing, List.mem_filter]
    simp [Option.isSome_iff_ne_none]
  refine ⟨hiff, fun r hr => ?_⟩
  obtain ⟨hmem, hc, ha⟩ := (hiff r).mp hr
  refine ⟨?_, ha⟩
  obtain ⟨e, -, -, -, -, -, havside, -⟩ := mergedRows_provenance raw av ov r hmem
  rcases havside with ⟨a, haav, -, -, -, hcarr⟩ | ⟨-, -, -, hnone⟩
  · cases hcs : r.carrier with
    | none => exact absurd hcs hc
    | some s =>
      refine ⟨s, rfl, ?_⟩
      intro hse
      subst hse
      exact hcar a haav (by rw [← hcarr, hcs])
  · exact absurd hnone hc

theorem compliance_record_filter_witness :
    (∃ s, wRow2.carrier = some s ∧ s ≠ "") ∧ wRow2.apptDate ≠ none :=
  (compliance_record_filter [wEvent2] [wAv2] [wOv2] (by decide)).2 wRow2 (by decide)

/-- C8: the timestamp parser is total and never aborts: any accepted string
denotes a valid instant, the canonical strftime format round-trips,
the empty string parses to the absent value, and an unparsable appointment
string propagates through the row evaluation as an absent value — the
evaluator returns its defined blank outputs rather than failing. -/
theorem time_parser_total :
    (∀ s d, parseTimestamp s = some d → validDT d) ∧
    (∀ d, validDT d → parseTimestamp (formatDT d) = some d) ∧
    parseTimestamp "" = none ∧
    (∀ t ty s sCin sLoad, parseTimestamp s = none →
      evalRowOfStrings t ty s sCin sLoad =
        { reqTime := none, comp := "", dwell := 0 }) := by
  refine ⟨parseTimestamp_valid, parseTimestamp_format, parseTimestamp_empty, ?_⟩
  intro t ty s sCin sLoad h
  rw [evalRowOfStrings, h]
  rfl

theorem time_parser_total_witness :
    parseTimestamp (formatDT ⟨2024, 3, 1, 8, 0⟩) = some ⟨2024, 3, 1, 8, 0⟩ ∧
    evalRowOfStrings 0 none "not a timestamp" "" "" =
      { reqTime := none, comp := "", dwell := 0 } :=
  ⟨time_parser_total.2.1 ⟨2024, 3, 1, 8, 0⟩ (by simp [validDT]),
   time_parser_total.2.2.2 0 none "not a timestamp" "" "" (by decide)⟩

/-- C9: the normalization stage never fails, and on a trailer-activity
frame missing both datetime columns it silently normalizes nothing instead
of raising a descriptive error. -/
theorem missing_column_not_fatal :
    (∀ dtCols frameCols, ∃ out, normalizedColumns dtCols frameCols = Except.ok out) ∧
    normalizedColumns datetimeColumnsTa ["SHIPMENT_ID", "VISIT TYPE", "ACTIVITY TYPE "] =
      Except.ok [] :=
  ⟨fun _ _ => ⟨_, rfl⟩, rfl⟩

/-- C10: the emitted Shipment ID (round, cast to text, strip every trailing
character in `{'.', '0'}`, drop a first comma — of which the cast output
has none) never ends in `'0'` or `'.'`, and identifiers differing only by
trailing zeros emit the same string. -/
theorem shipment_id_emission (n k : Nat) :
    (∀ c, (emitShipmentId n).data.getLast? = some c → c ≠ '0' ∧ c ≠ '.') ∧
    emitShipmentId (n * 10 ^ k) = emitShipmentId n := by
  constructor
  · intro c hc
    rw [emitShipmentId_data] at hc
    have := stripTrailingDotZero_last _ c hc
    exact ⟨this.2, this.1⟩
  · induction k with
    | zero => simp
    | succ m ih =>
      have hsplit : n * 10 ^ (m + 1) = 10 * (n * 10 ^ m) := by ring
      rw [hsplit, emitShipmentId_mul_ten, ih]

theorem shipment_id_emission_witness :
    ('4' ≠ '0' ∧ '4' ≠ '.') ∧ emitShipmentId (1234 * 10 ^ 1) = emitShipmentId 1234 :=
  ⟨(shipment_id_emission 1234 1).1 '4' (by decide), (shipment_id_emission 1234 1).2⟩
